import Mathlib

/-!
Verification of the serialization/deserialization core of the
cppyythonizations repository (src/cppyythonizations/pickling/cereal.hpp).

The C++ code under verification is

    template <typename T>
    std::string serialize(const T &value) {
      std::stringstream serialized;
      {
        JSONOutputArchive archive(serialized, NoIndent());
        archive(make_nvp("cereal", value));
      }
      return serialized.str();
    }

    template <typename T>
    T deserialize(const std::string &serialized) {
      std::stringstream stream(serialized);
      T value;
      {
        JSONInputArchive archive(stream);
        archive(make_nvp("cereal", value));
      }
      return value;
    }

Embedding choices, mirrored from the source:

* The structured text produced by the external JSON archive is modelled as a
  stream of structural tokens (`Token`): object brackets, field keys, and
  scalar leaves.  The byte-level grammar belongs to the external archive
  library; the spec treats it as an opaque round-trip format, and the token
  stream is its faithful structural skeleton.
* A value's field tree, as exposed to the archive by the type's own
  field-visiting capability, is a `Json` tree.  A type `T` is represented by
  an arbitrary Lean type together with a save visitor
  `saveT : T -> Except E Json` (which may fail, modelling a C++ exception
  thrown during field visiting) and a load visitor
  `loadT : Json -> T -> Except E T` that populates a value in place from a
  field tree.  Default constructibility is an explicit default value `dfl`.
* `JSONOutputArchive` models the cereal JSON output archive: construction
  opens the root object, `saveNvp` appends a named subtree, and `finish`
  models the destructor, which closes the root object and flushes everything
  to the stringstream.  `JSONInputArchive.make` models the input archive
  constructor, which parses the whole document up front and fails on
  malformed input; `loadNvp` models reading a named value, which searches the
  root object for the requested name and fails if it is absent.
* `serializeE` and `deserialize` are the two functions of the header.
* `serializeRun` is the same serialize computation instrumented with the
  ordered events of the C++ scope (buffer allocation, writer construction,
  field visit, writer destruction with its flush, buffer read, exception
  propagation) so that the flush-before-read discipline is provable.
* `serializeW` runs serialize against an explicit heap of transient buffers
  (`Heap`), as a script of primitive `BufAction`s, so that freedom from global
  mutable state, the frame property, and isolation of concurrent calls are
  provable rather than vacuous.
-/

/-- Structural tokens of the encoded text form emitted by the JSON archive:
object brackets, field keys and scalar leaves, in emission order. -/
inductive Token : Type where
  | objStart : Token
  | objEnd : Token
  | key : String → Token
  | num : Int → Token
  | str : String → Token
deriving DecidableEq

mutual

/-- A field tree, as a value's field-visiting capability describes it to the
archive: scalar leaves and objects of named fields. -/
inductive Json : Type where
  | num : Int → Json
  | str : String → Json
  | obj : Fields → Json

/-- The named fields of a `Json` object, in declaration order. -/
inductive Fields : Type where
  | nil : Fields
  | cons : String → Json → Fields → Fields

end

mutual

/-- Token stream the archive emits for a field tree. -/
def render : Json → List Token
  | Json.num n => [Token.num n]
  | Json.str s => [Token.str s]
  | Json.obj fs => Token.objStart :: renderFields fs ++ [Token.objEnd]

/-- Token stream the archive emits for a list of named fields. -/
def renderFields : Fields → List Token
  | Fields.nil => []
  | Fields.cons k v fs => Token.key k :: render v ++ renderFields fs

end

mutual

/-- Recursion fuel sufficient to parse back the rendering of a tree. -/
def jfuel : Json → Nat
  | Json.num _ => 1
  | Json.str _ => 1
  | Json.obj fs => ffuel fs + 1

/-- Recursion fuel sufficient to parse back the rendering of a field list. -/
def ffuel : Fields → Nat
  | Fields.nil => 1
  | Fields.cons _ v fs => jfuel v + ffuel fs + 1

end

mutual

/-- Fuelled parser for one field tree at the head of a token stream; returns
the tree and the unconsumed remainder of the stream. -/
def parseJ : Nat → List Token → Option (Json × List Token)
  | 0, _ => none
  | _ + 1, Token.num n :: rest => some (Json.num n, rest)
  | _ + 1, Token.str s :: rest => some (Json.str s, rest)
  | fuel + 1, Token.objStart :: rest =>
    match parseF fuel rest with
    | some (fs, rest') => some (Json.obj fs, rest')
    | none => none
  | _ + 1, _ => none

/-- Fuelled parser for named fields up to and including the closing object
bracket. -/
def parseF : Nat → List Token → Option (Fields × List Token)
  | 0, _ => none
  | _ + 1, Token.objEnd :: rest => some (Fields.nil, rest)
  | fuel + 1, Token.key k :: rest =>
    match parseJ fuel rest with
    | some (v, rest') =>
      match parseF fuel rest' with
      | some (fs, rest'') => some (Fields.cons k v fs, rest'')
      | none => none
    | none => none
  | _ + 1, _ => none

end

/-- Parse of a whole document, as the input archive constructor performs it:
the entire stream must be exactly one field tree (trailing tokens are a parse
error, matching the document-root-not-singular error of the external
parser). -/
def parseTop (toks : List Token) : Option Json :=
  match parseJ toks.length toks with
  | some (j, []) => some j
  | _ => none

/-- Search of an object's fields for a given name, as the input archive's
named-value lookup performs it. -/
def findField : Fields → String → Option Json
  | Fields.nil, _ => none
  | Fields.cons k v fs, name => if k = name then some v else findField fs name

/-- The field tree of a value wrapped under the single fixed top-level name
used by the header: one object with the single field named "cereal". -/
def wrapped (j : Json) : Json :=
  Json.obj (Fields.cons "cereal" j Fields.nil)

/-- The cereal JSON output archive: its pending structural output, buffered
until the destructor flushes it to the stringstream. -/
structure JSONOutputArchive : Type where
  pending : List Token

/-- Construction of the output archive on a stream: opens the root object. -/
def JSONOutputArchive.start : JSONOutputArchive :=
  { pending := [Token.objStart] }

/-- The archive call with a name-value pair: appends the named field tree to
the archive's pending output. -/
def JSONOutputArchive.saveNvp (a : JSONOutputArchive) (name : String) (j : Json) :
    JSONOutputArchive :=
  { pending := a.pending ++ Token.key name :: render j }

/-- Destruction of the output archive: closes the root object and flushes all
pending output to the stream, whose final contents it returns. -/
def JSONOutputArchive.finish (a : JSONOutputArchive) : List Token :=
  a.pending ++ [Token.objEnd]

/-- The serialize function of the header.  `saveT` is the field-visiting
capability of `T`; a `Except.error` result of `saveT` models an exception
thrown while the archive visits the value's fields. -/
def serializeE (T E : Type) (saveT : T → Except E Json) (value : T) :
    Except E (List Token) :=
  let serialized : List Token := []
  match saveT value with
  | Except.error e => Except.error e
  | Except.ok j =>
    let archive := JSONOutputArchive.start
    let archive := archive.saveNvp "cereal" j
    Except.ok (serialized ++ archive.finish)

/-- Errors of a deserialize call: a malformed document, a document whose root
is not an object of named fields, a missing name-value pair, or a failure of
the type's own load visitor. -/
inductive DeserializeError (E : Type) : Type where
  | parseError : DeserializeError E
  | rootNotObject : DeserializeError E
  | nvpNotFound : String → DeserializeError E
  | visitorError : E → DeserializeError E

/-- The cereal JSON input archive: the named fields of the parsed document's
root object. -/
structure JSONInputArchive : Type where
  root : Fields

/-- Construction of the input archive on a stream: parses the entire document
up front, failing on malformed input or a non-object root. -/
def JSONInputArchive.make (E : Type) (stream : List Token) :
    Except (DeserializeError E) JSONInputArchive :=
  match parseTop stream with
  | some (Json.obj fields) => Except.ok { root := fields }
  | some (Json.num _) => Except.error DeserializeError.rootNotObject
  | some (Json.str _) => Except.error DeserializeError.rootNotObject
  | none => Except.error DeserializeError.parseError

/-- The archive call with a name-value pair in read mode: searches the root
object for the requested name, failing if it is absent, then drives the
type's load visitor on the named subtree to populate the value. -/
def JSONInputArchive.loadNvp (T E : Type) (a : JSONInputArchive) (name : String)
    (loadT : Json → T → Except E T) (value : T) : Except (DeserializeError E) T :=
  match findField a.root name with
  | none => Except.error (DeserializeError.nvpNotFound name)
  | some node =>
    match loadT node value with
    | Except.error e => Except.error (DeserializeError.visitorError e)
    | Except.ok v => Except.ok v

/-- The deserialize function of the header.  `loadT` is the read-mode
field-visiting capability of `T` and `dfl` the default-constructed value that
is populated in place. -/
def deserialize (T E : Type) (loadT : Json → T → Except E T) (dfl : T)
    (serialized : List Token) : Except (DeserializeError E) T :=
  let stream := serialized
  let value := dfl
  match JSONInputArchive.make E stream with
  | Except.error err => Except.error err
  | Except.ok archive => JSONInputArchive.loadNvp T E archive "cereal" loadT value

/-- Ordered observable events of one serialize call: allocation of the
transient stringstream, construction of the writer, the field visit,
destruction of the writer carrying the contents it flushed, the read of the
buffer's contents, and propagation of an exception. -/
inductive Ev : Type where
  | allocBuffer : Ev
  | constructWriter : Ev
  | writeNvp : String → Ev
  | destroyWriter : List Token → Ev
  | readBuffer : List Token → Ev
  | raise : Ev
deriving DecidableEq

/-- The serialize function instrumented with its event trace.  On the normal
path the scope ends, destroying the writer (which flushes), and only then is
the buffer read and returned.  On the exception path stack unwinding destroys
the writer and the exception propagates; the buffer is never read. -/
def serializeRun (T E : Type) (saveT : T → Except E Json) (value : T) :
    Except E (List Token) × List Ev :=
  let archive := JSONOutputArchive.start
  match saveT value with
  | Except.error e =>
    (Except.error e,
      [Ev.allocBuffer, Ev.constructWriter, Ev.destroyWriter archive.finish, Ev.raise])
  | Except.ok j =>
    let archive := archive.saveNvp "cereal" j
    let serialized := archive.finish
    (Except.ok serialized,
      [Ev.allocBuffer, Ev.constructWriter, Ev.writeNvp "cereal",
        Ev.destroyWriter serialized, Ev.readBuffer serialized])

/-- Trace observer: scans a trace and checks that every buffer read happens
after the writer has been destroyed, and reads exactly the contents the
destructor flushed.  The second argument carries the flushed contents once
the writer has been destroyed. -/
def readsAfterFlush : List Ev → Option (List Token) → Bool
  | [], _ => true
  | Ev.destroyWriter f :: tr, _ => readsAfterFlush tr (some f)
  | Ev.readBuffer _ :: _, none => false
  | Ev.readBuffer c :: tr, some f => decide (c = f) && readsAfterFlush tr (some f)
  | _ :: tr, st => readsAfterFlush tr st

/-- Ambient state of transient buffers: each numbered buffer slot is either
unallocated or holds its current token contents. -/
abbrev Heap : Type := Nat → Option (List Token)

/-- Primitive effects of a serialize call on the ambient buffer heap:
allocate its stringstream, append flushed tokens to it, and release it. -/
inductive BufAction : Type where
  | alloc : Nat → BufAction
  | write : Nat → List Token → BufAction
  | free : Nat → BufAction
deriving DecidableEq

/-- The buffer slot an action touches. -/
def BufAction.target : BufAction → Nat
  | BufAction.alloc b => b
  | BufAction.write b _ => b
  | BufAction.free b => b

/-- Effect of one action on the heap. -/
def BufAction.step : BufAction → Heap → Heap
  | BufAction.alloc b, h => fun b' => if b' = b then some [] else h b'
  | BufAction.write b ts, h => fun b' => if b' = b then (h b).map (fun c => c ++ ts) else h b'
  | BufAction.free b, h => fun b' => if b' = b then none else h b'

/-- Sequential execution of a list of actions. -/
def runScript : List BufAction → Heap → Heap
  | [], h => h
  | a :: as, h => runScript as (BufAction.step a h)

/-- Heap effects of the successful serialize path on its own buffer `b`:
allocation, the writer's root-object opening, the named field tree, and the
destructor's closing flush. -/
def serializeScript (b : Nat) (j : Json) : List BufAction :=
  [BufAction.alloc b, BufAction.write b [Token.objStart],
    BufAction.write b (Token.key "cereal" :: render j), BufAction.write b [Token.objEnd]]

/-- Heap effects of the failing serialize path: allocation, the writer's
root-object opening, the unwinding destructor's closing flush, and release of
the buffer as the exception leaves the scope. -/
def serializeFailScript (b : Nat) : List BufAction :=
  [BufAction.alloc b, BufAction.write b [Token.objStart], BufAction.write b [Token.objEnd],
    BufAction.free b]

/-- All heap effects of one serialize call on buffer `b`, both paths,
including the final release of the buffer. -/
def serializeActions (T E : Type) (b : Nat) (saveT : T → Except E Json) (v : T) :
    List BufAction :=
  match saveT v with
  | Except.error _ => serializeFailScript b
  | Except.ok j => serializeScript b j ++ [BufAction.free b]

/-- The serialize function run against an explicit ambient heap: it allocates
its transient buffer at slot `b`, performs its writes, reads the buffer's
final contents as the result, and releases the buffer. -/
def serializeW (T E : Type) (b : Nat) (saveT : T → Except E Json) (v : T) (h : Heap) :
    Except E (List Token) × Heap :=
  match saveT v with
  | Except.error e => (Except.error e, runScript (serializeFailScript b) h)
  | Except.ok j =>
    let h' := runScript (serializeScript b j) h
    let serialized := (h' b).getD []
    (Except.ok serialized, runScript [BufAction.free b] h')

/-- Heap effects of the decode-side stringstream before the archive reads it:
allocation of the transient input buffer and its initialization from the
Encoded Form. -/
def deserializeScript (b : Nat) (s : List Token) : List BufAction :=
  [BufAction.alloc b, BufAction.write b s]

/-- All heap effects of one deserialize call on buffer `b`: the input stream
is allocated, initialized from the Encoded Form, read by the archive, and
released on scope exit. -/
def deserializeActions (b : Nat) (s : List Token) : List BufAction :=
  deserializeScript b s ++ [BufAction.free b]

/-- The deserialize function run against an explicit ambient heap: it
allocates its transient input buffer at slot `b`, fills it from the Encoded
Form, reads it back as the archive's stream, and releases the buffer. -/
def deserializeW (T E : Type) (b : Nat) (loadT : Json → T → Except E T) (dfl : T)
    (serialized : List Token) (h : Heap) : Except (DeserializeError E) T × Heap :=
  let h' := runScript (deserializeScript b serialized) h
  let stream := (h' b).getD []
  (deserialize T E loadT dfl stream, runScript [BufAction.free b] h')

/-- An interleaving of two action sequences, as an arbitrary scheduler might
order the primitive effects of two threads. -/
inductive Interleaving : List BufAction → List BufAction → List BufAction → Prop where
  | nil : Interleaving [] [] []
  | left (x : BufAction) (xs ys zs : List BufAction) :
      Interleaving xs ys zs → Interleaving (x :: xs) ys (x :: zs)
  | right (y : BufAction) (xs ys zs : List BufAction) :
      Interleaving xs ys zs → Interleaving xs (y :: ys) (y :: zs)

/-- Sample field tree of a value with two integer fields. -/
def sampleTree : Json :=
  Json.obj (Fields.cons "a" (Json.num 3) (Fields.cons "b" (Json.num 5) Fields.nil))

/-- Sample field-visiting save capability of a two-int-field type, used to
evaluate the theorems on concrete inputs. -/
def sampleSave (p : Int × Int) : Except Unit Json :=
  Except.ok (Json.obj (Fields.cons "a" (Json.num p.fst)
    (Fields.cons "b" (Json.num p.snd) Fields.nil)))

/-- Sample field-visiting load capability matching `sampleSave`. -/
def sampleLoad (j : Json) (_dfl : Int × Int) : Except Unit (Int × Int) :=
  match j with
  | Json.obj (Fields.cons "a" (Json.num a) (Fields.cons "b" (Json.num b) Fields.nil)) =>
    Except.ok (a, b)
  | _ => Except.error ()

/-- Sample save capability that always fails, modelling a type whose field
visit throws. -/
def sampleSaveFail (_p : Int × Int) : Except Unit Json :=
  Except.error ()

/-- The empty ambient heap: no buffer allocated. -/
def emptyHeap : Heap :=
  fun _ => none

mutual

/-- Parsing is a left inverse of rendering for a single field tree, given
enough fuel. -/
theorem parseJ_render : ∀ (j : Json) (fuel : Nat) (rest : List Token),
    jfuel j ≤ fuel → parseJ fuel (render j ++ rest) = some (j, rest)
  | j, 0, _, h => by cases j <;> simp [jfuel] at h
  | Json.num _, _ + 1, _, _ => by simp [render, parseJ]
  | Json.str _, _ + 1, _, _ => by simp [render, parseJ]
  | Json.obj fs, fuel + 1, rest, h => by
    have hf : ffuel fs ≤ fuel := by simp [jfuel] at h; omega
    have ih := parseF_render fs fuel rest hf
    simp [render, parseJ, List.cons_append, List.append_assoc, ih]

/-- Parsing is a left inverse of rendering for a field list followed by the
closing bracket, given enough fuel. -/
theorem parseF_render : ∀ (fs : Fields) (fuel : Nat) (rest : List Token),
    ffuel fs ≤ fuel → parseF fuel (renderFields fs ++ Token.objEnd :: rest) = some (fs, rest)
  | fs, 0, _, h => by cases fs <;> simp [ffuel] at h
  | Fields.nil, _ + 1, _, _ => by simp [renderFields, parseF]
  | Fields.cons k v fs, fuel + 1, rest, h => by
    have hv : jfuel v ≤ fuel := by simp [ffuel] at h; omega
    have hfs : ffuel fs ≤ fuel := by simp [ffuel] at h; omega
    have ihv := parseJ_render v fuel (renderFields fs ++ Token.objEnd :: rest) hv
    have ihf := parseF_render fs fuel rest hfs
    simp [renderFields, parseF, List.cons_append, List.append_assoc, ihv, ihf]

end

mutual

/-- The rendering of a tree is at least as long as the fuel its parse
needs. -/
theorem jfuel_le_render : ∀ j : Json, jfuel j ≤ (render j).length
  | Json.num _ => by simp [jfuel, render]
  | Json.str _ => by simp [jfuel, render]
  | Json.obj fs => by
    have h := ffuel_le_renderFields fs
    simp [jfuel, render]
    omega

/-- The rendering of a field list plus its closing bracket is at least as
long as the fuel its parse needs. -/
theorem ffuel_le_renderFields : ∀ fs : Fields, ffuel fs ≤ (renderFields fs).length + 1
  | Fields.nil => by simp [ffuel, renderFields]
  | Fields.cons k v fs => by
    have h1 := jfuel_le_render v
    have h2 := ffuel_le_renderFields fs
    simp [ffuel, renderFields]
    omega

end

/-- Whole-document parsing inverts rendering. -/
theorem parseTop_render (j : Json) : parseTop (render j) = some j := by
  have h2 := parseJ_render j (render j).length [] (jfuel_le_render j)
  rw [List.append_nil] at h2
  simp [parseTop, h2]

/-- On a successful field visit, serialize returns exactly the rendering of
the value's field tree wrapped under the top-level name "cereal". -/
theorem serializeE_ok (T E : Type) (saveT : T → Except E Json) (v : T) (j : Json)
    (hs : saveT v = Except.ok j) :
    serializeE T E saveT v = Except.ok (render (wrapped j)) := by
  simp [serializeE, hs, JSONOutputArchive.start, JSONOutputArchive.saveNvp,
    JSONOutputArchive.finish, render, renderFields, wrapped]

/-- Deserializing the wrapped rendering of a field tree hands exactly that
tree to the type's load visitor and returns its verdict. -/
theorem deserialize_wrapped (T E : Type) (loadT : Json → T → Except E T) (dfl : T)
    (j : Json) :
    deserialize T E loadT dfl (render (wrapped j)) =
      match loadT j dfl with
      | Except.ok v => Except.ok v
      | Except.error e => Except.error (DeserializeError.visitorError e) := by
  simp [deserialize, JSONInputArchive.make, parseTop_render, wrapped,
    JSONInputArchive.loadNvp, findField]
  cases loadT j dfl <;> rfl

/-- Characterization of a successful deserialize: it succeeds exactly when the
input parses to an object document carrying a field named "cereal" whose
subtree the type's load visitor accepts in full. -/
theorem deserialize_ok_char (T E : Type) (loadT : Json → T → Except E T) (dfl : T)
    (s : List Token) (t : T) :
    deserialize T E loadT dfl s = Except.ok t ↔
      ∃ fields node, parseTop s = some (Json.obj fields) ∧
        findField fields "cereal" = some node ∧ loadT node dfl = Except.ok t := by
  unfold deserialize JSONInputArchive.make JSONInputArchive.loadNvp
  cases hp : parseTop s with
  | none => simp [hp]
  | some j =>
    cases j with
    | num n => simp [hp]
    | str s2 => simp [hp]
    | obj fields =>
      cases hf : findField fields "cereal" with
      | none => simp [hp, hf]
      | some node =>
        cases hl : loadT node dfl with
        | error e => simp [hp, hf, hl]
        | ok v => simp [hp, hf, hl]

/-- The effect of one action on a buffer slot depends only on that slot's
prior contents. -/
theorem step_agree (a : BufAction) (h h' : Heap) (b : Nat) (hb : h b = h' b) :
    BufAction.step a h b = BufAction.step a h' b := by
  cases a with
  | alloc c =>
    simp only [BufAction.step]
    split <;> simp [hb]
  | write c ts =>
    simp only [BufAction.step]
    split
    · rename_i hc
      subst hc
      rw [hb]
    · exact hb
  | free c =>
    simp only [BufAction.step]
    split <;> simp [hb]

/-- An action leaves every buffer slot other than its target unchanged. -/
theorem step_other (a : BufAction) (h : Heap) (b : Nat) (hb : b ≠ a.target) :
    BufAction.step a h b = h b := by
  cases a <;> simp [BufAction.step, BufAction.target] at hb ⊢ <;> simp [hb]

/-- A script all of whose actions target one slot leaves every other slot
unchanged. -/
theorem runScript_targets_other (A : List BufAction) (b : Nat)
    (hA : ∀ a ∈ A, BufAction.target a = b) (b' : Nat) (hb : b' ≠ b) (h : Heap) :
    runScript A h b' = h b' := by
  induction A generalizing h with
  | nil => rfl
  | cons a as ih =>
    have ha : BufAction.target a = b := hA a (List.mem_cons_self a as)
    have has : ∀ x ∈ as, BufAction.target x = b := fun x hx => hA x (List.mem_cons_of_mem a hx)
    rw [runScript, ih has, step_other]
    rw [ha]
    exact hb

/-- Running the successful serialize script leaves its own buffer holding the
wrapped rendering of the field tree. -/
theorem runScript_serializeScript (b : Nat) (j : Json) (h : Heap) :
    runScript (serializeScript b j) h b = some (render (wrapped j)) := by
  simp [serializeScript, runScript, BufAction.step, render, renderFields, wrapped]

/-- Every action of the successful serialize script targets its own buffer. -/
theorem serializeScript_targets (b : Nat) (j : Json) :
    ∀ a ∈ serializeScript b j, BufAction.target a = b := by
  intro a ha
  simp [serializeScript] at ha
  rcases ha with h | h | h | h <;> subst h <;> rfl

/-- Every action of a full serialize call targets its own buffer. -/
theorem serializeActions_targets (T E : Type) (b : Nat) (saveT : T → Except E Json)
    (v : T) : ∀ a ∈ serializeActions T E b saveT v, BufAction.target a = b := by
  intro a ha
  unfold serializeActions at ha
  cases hs : saveT v with
  | error e =>
    rw [hs] at ha
    simp [serializeFailScript] at ha
    rcases ha with h | h | h | h <;> subst h <;> rfl
  | ok j =>
    rw [hs] at ha
    rcases List.mem_append.mp ha with h | h
    · exact serializeScript_targets b j a h
    · simp at h
      subst h
      rfl

/-- Interleaving two action sequences is symmetric. -/
theorem interleaving_symm (A B L : List BufAction) (hI : Interleaving A B L) :
    Interleaving B A L := by
  induction hI with
  | nil => exact Interleaving.nil
  | left x xs ys zs _ ih => exact Interleaving.right x ys xs zs ih
  | right y xs ys zs _ ih => exact Interleaving.left y ys xs zs ih

/-- Concatenation is one particular interleaving of two action sequences. -/
theorem interleaving_append (A B : List BufAction) : Interleaving A B (A ++ B) := by
  induction A with
  | nil =>
    induction B with
    | nil => exact Interleaving.nil
    | cons y ys ih => exact Interleaving.right y [] ys ys ih
  | cons x xs ih => exact Interleaving.left x xs B (xs ++ B) ih

/-- In any interleaving with a second sequence that never touches slot `b`,
slot `b` evolves exactly as if the first sequence ran alone. -/
theorem runScript_interleaving_agree (b : Nat) :
    ∀ (A B L : List BufAction), Interleaving A B L →
      (∀ a ∈ B, BufAction.target a ≠ b) →
      ∀ (h h' : Heap), h b = h' b → runScript L h b = runScript A h' b := by
  intro A B L hI
  induction hI with
  | nil =>
    intro _ h h' hb
    exact hb
  | left x xs ys zs _ ih =>
    intro hB h h' hb
    rw [runScript, runScript]
    exact ih hB (BufAction.step x h) (BufAction.step x h') (step_agree x h h' b hb)
  | right y xs ys zs _ ih =>
    intro hB h h' hb
    rw [runScript]
    have hy : BufAction.target y ≠ b := hB y (List.mem_cons_self y ys)
    have hstep : BufAction.step y h b = h b := step_other y h b (fun hc => hy hc.symm)
    exact ih (fun a ha => hB a (List.mem_cons_of_mem y ha)) (BufAction.step y h) h'
      (hstep.trans hb)

/-- The result of a heap-instrumented serialize call agrees with the plain
serialize function: the ambient heap contributes nothing to the result. -/
theorem serializeW_fst (T E : Type) (b : Nat) (saveT : T → Except E Json) (v : T)
    (h : Heap) : (serializeW T E b saveT v h).fst = serializeE T E saveT v := by
  cases hs : saveT v with
  | error e => simp [serializeW, serializeE, hs]
  | ok j =>
    rw [serializeE_ok T E saveT v j hs]
    simp [serializeW, hs, runScript_serializeScript]

/-- Every action of the failing serialize path targets its own buffer. -/
theorem serializeFailScript_targets (b : Nat) :
    ∀ a ∈ serializeFailScript b, BufAction.target a = b := by
  intro a ha
  simp [serializeFailScript] at ha
  rcases ha with h | h | h | h <;> subst h <;> rfl

/-- A serialize call restores the ambient heap: its transient buffer is
released on exit, and no other slot is ever touched. -/
theorem serializeW_snd (T E : Type) (b : Nat) (saveT : T → Except E Json) (v : T)
    (h : Heap) (hb : h b = none) : (serializeW T E b saveT v h).snd = h := by
  cases hs : saveT v with
  | error e =>
    funext b'
    by_cases hbb : b' = b
    · subst hbb
      simp [serializeW, hs, serializeFailScript, runScript, BufAction.step, hb]
    · simp only [serializeW, hs]
      exact runScript_targets_other (serializeFailScript b) b
        (serializeFailScript_targets b) b' hbb h
  | ok j =>
    funext b'
    by_cases hbb : b' = b
    · subst hbb
      simp [serializeW, hs, runScript, BufAction.step, hb]
    · simp only [serializeW, hs]
      rw [runScript, runScript]
      rw [step_other (BufAction.free b) _ b' (by simpa [BufAction.target] using hbb)]
      exact runScript_targets_other (serializeScript b j) b
        (serializeScript_targets b j) b' hbb h

/-- Claim C1: for every type with a field-visiting capability and every valid
instance, deserializing the serialization yields a value observably equal to
the original under the type's own field semantics: if the value's field visit
succeeds with tree `j` and the type's own load visitor reconstructs the value
from `j`, then serialize succeeds and deserialize of its output returns
exactly the original value. -/
theorem serialize_deserialize_roundtrip (T E : Type) (saveT : T → Except E Json)
    (loadT : Json → T → Except E T) (dfl v : T) (j : Json)
    (hs : saveT v = Except.ok j) (hl : loadT j dfl = Except.ok v) :
    ∃ s, serializeE T E saveT v = Except.ok s ∧
      deserialize T E loadT dfl s = Except.ok v := by
  refine ⟨render (wrapped j), serializeE_ok T E saveT v j hs, ?_⟩
  rw [deserialize_wrapped T E loadT dfl j, hl]

/-- Witness for C1 at a concrete two-int-field value. -/
theorem serialize_deserialize_roundtrip_witness :
    ∃ s, serializeE (Int × Int) Unit sampleSave (3, 5) = Except.ok s ∧
      deserialize (Int × Int) Unit sampleLoad (0, 0) s = Except.ok (3, 5) :=
  serialize_deserialize_roundtrip (Int × Int) Unit sampleSave sampleLoad (0, 0) (3, 5)
    sampleTree rfl rfl

/-- Claim C2: deserialize succeeds exactly when the encoded input parses to an
object document with a top-level field named "cereal" whose subtree the
type's visitor accepts in full; on any top-level name or shape mismatch it
returns an error and never a partially populated value. -/
theorem deserialize_failure_isolation (T E : Type) (loadT : Json → T → Except E T)
    (dfl : T) (s : List Token) (t : T) :
    deserialize T E loadT dfl s = Except.ok t ↔
      ∃ fields node, parseTop s = some (Json.obj fields) ∧
        findField fields "cereal" = some node ∧ loadT node dfl = Except.ok t :=
  deserialize_ok_char T E loadT dfl s t

/-- Claim C3: on every exit path of serialize, normal or exceptional, the
archive writer is destroyed, flushing all buffered structural data, strictly
before the buffer's contents are read out, and what is read is exactly the
flushed contents; moreover the instrumented run returns the same result as
the plain serialize function. -/
theorem serialize_flush_before_read (T E : Type) (saveT : T → Except E Json) (v : T) :
    readsAfterFlush (serializeRun T E saveT v).snd none = true ∧
      (serializeRun T E saveT v).fst = serializeE T E saveT v := by
  cases hs : saveT v with
  | error e => simp [serializeRun, serializeE, hs, readsAfterFlush]
  | ok j => simp [serializeRun, serializeE, hs, readsAfterFlush]

/-- Claim C4: the top-level name used on encode equals the name expected on
decode: deserializing any successful serialize output locates the payload
written by serialize and hands exactly that field tree to the decode-side
visitor, whatever type the decode side targets. -/
theorem serialize_name_matches_decode (T E U E2 : Type) (saveT : T → Except E Json)
    (v : T) (j : Json) (loadT : Json → U → Except E2 U) (dfl : U)
    (hs : saveT v = Except.ok j) :
    ∃ s, serializeE T E saveT v = Except.ok s ∧
      deserialize U E2 loadT dfl s =
        match loadT j dfl with
        | Except.ok t => Except.ok t
        | Except.error e => Except.error (DeserializeError.visitorError e) := by
  refine ⟨render (wrapped j), serializeE_ok T E saveT v j hs, ?_⟩
  exact deserialize_wrapped U E2 loadT dfl j

/-- Witness for C4 at a concrete two-int-field value. -/
theorem serialize_name_matches_decode_witness :
    ∃ s, serializeE (Int × Int) Unit sampleSave (3, 5) = Except.ok s ∧
      deserialize (Int × Int) Unit sampleLoad (0, 0) s =
        match sampleLoad sampleTree (0, 0) with
        | Except.ok t => Except.ok t
        | Except.error e => Except.error (DeserializeError.visitorError e) :=
  serialize_name_matches_decode (Int × Int) Unit (Int × Int) Unit sampleSave (3, 5)
    sampleTree sampleLoad (0, 0) rfl

/-- Claim C5: serialize is deterministic: two calls on the same value, with
any transient buffer slots and any ambient heaps, produce identical Encoded
Forms, namely the one the pure serialize function computes; nothing outside
the value itself influences the output. -/
theorem serialize_deterministic (T E : Type) (saveT : T → Except E Json) (v : T)
    (b1 b2 : Nat) (h1 h2 : Heap) :
    (serializeW T E b1 saveT v h1).fst = (serializeW T E b2 saveT v h2).fst ∧
      (serializeW T E b1 saveT v h1).fst = serializeE T E saveT v := by
  refine ⟨?_, serializeW_fst T E b1 saveT v h1⟩
  rw [serializeW_fst T E b1 saveT v h1, serializeW_fst T E b2 saveT v h2]

/-- Claim C6: if the field-visiting protocol raises during serialize, the
failure propagates to the caller unchanged and no Encoded Form, partial or
otherwise, is returned. -/
theorem serialize_error_propagates (T E : Type) (saveT : T → Except E Json) (v : T)
    (e : E) (hs : saveT v = Except.error e) :
    serializeE T E saveT v = Except.error e := by
  simp [serializeE, hs]

/-- Witness for C6 at a concrete value whose field visit throws. -/
theorem serialize_error_propagates_witness :
    serializeE (Int × Int) Unit sampleSaveFail (0, 0) = Except.error () :=
  serialize_error_propagates (Int × Int) Unit sampleSaveFail (0, 0) () rfl

/-- Claim C7: serialize does not mutate anything observable: the value is
taken immutably, and the only ambient effect is the transient buffer, which
is allocated fresh and released on exit, so the final heap equals the initial
heap and no prefix of the call's effects ever touches any other slot. -/
theorem serialize_no_side_effects (T E : Type) (b : Nat) (saveT : T → Except E Json)
    (v : T) (h : Heap) (hb : h b = none) :
    (serializeW T E b saveT v h).snd = h ∧
      ∀ (i b' : Nat), b' ≠ b →
        runScript (List.take i (serializeActions T E b saveT v)) h b' = h b' := by
  refine ⟨serializeW_snd T E b saveT v h hb, ?_⟩
  intro i b' hbb
  exact runScript_targets_other (List.take i (serializeActions T E b saveT v)) b
    (fun a ha => serializeActions_targets T E b saveT v a (List.take_subset i _ ha))
    b' hbb h

/-- Witness for C7 at a concrete value and the empty ambient heap. -/
theorem serialize_no_side_effects_witness :
    (serializeW (Int × Int) Unit 0 sampleSave (3, 5) emptyHeap).snd = emptyHeap ∧
      ∀ (i b' : Nat), b' ≠ 0 →
        runScript (List.take i (serializeActions (Int × Int) Unit 0 sampleSave (3, 5)))
          emptyHeap b' = emptyHeap b' :=
  serialize_no_side_effects (Int × Int) Unit 0 sampleSave (3, 5) emptyHeap rfl

/-- Claim C8: on structurally compatible input, deserialize default-constructs
a value, populates it in place by driving the reader over the parsed input
document, and returns the fully populated value. -/
theorem deserialize_populates_default (T E : Type) (loadT : Json → T → Except E T)
    (dfl : T) (s : List Token) (fields : Fields) (node : Json) (t : T)
    (hp : parseTop s = some (Json.obj fields))
    (hf : findField fields "cereal" = some node)
    (hl : loadT node dfl = Except.ok t) :
    deserialize T E loadT dfl s = Except.ok t :=
  (deserialize_ok_char T E loadT dfl s t).mpr ⟨fields, node, hp, hf, hl⟩

/-- Witness for C8 at a concrete encoded input. -/
theorem deserialize_populates_default_witness :
    deserialize (Int × Int) Unit sampleLoad (0, 0) (render (wrapped sampleTree)) =
      Except.ok (3, 5) :=
  deserialize_populates_default (Int × Int) Unit sampleLoad (0, 0)
    (render (wrapped sampleTree)) (Fields.cons "cereal" sampleTree Fields.nil)
    sampleTree (3, 5) rfl rfl rfl

/-- Claim C10: the single fixed top-level wrapping name of both serialize and
deserialize is the literal string "cereal": every successful serialize output
is an object with exactly one top-level field, named "cereal", and deserialize
succeeds only on inputs whose top level carries a field named "cereal". -/
theorem top_level_name_is_cereal :
    (∀ (T E : Type) (saveT : T → Except E Json) (v : T) (j : Json),
      saveT v = Except.ok j →
        serializeE T E saveT v =
            Except.ok (render (Json.obj (Fields.cons "cereal" j Fields.nil))) ∧
          parseTop (render (Json.obj (Fields.cons "cereal" j Fields.nil))) =
            some (Json.obj (Fields.cons "cereal" j Fields.nil))) ∧
      ∀ (T E : Type) (loadT : Json → T → Except E T) (dfl : T) (s : List Token) (t : T),
        deserialize T E loadT dfl s = Except.ok t →
          ∃ fields node, parseTop s = some (Json.obj fields) ∧
            findField fields "cereal" = some node := by
  constructor
  · intro T E saveT v j hs
    exact ⟨serializeE_ok T E saveT v j hs, parseTop_render (wrapped j)⟩
  · intro T E loadT dfl s t hok
    obtain ⟨fields, node, hp, hf, _⟩ := (deserialize_ok_char T E loadT dfl s t).mp hok
    exact ⟨fields, node, hp, hf⟩

/-- Witness for C10: the encode side evaluated at a concrete value and the
decode side at a concrete accepted input. -/
theorem top_level_name_is_cereal_witness :
    (serializeE (Int × Int) Unit sampleSave (3, 5) =
          Except.ok (render (Json.obj (Fields.cons "cereal" sampleTree Fields.nil))) ∧
        parseTop (render (Json.obj (Fields.cons "cereal" sampleTree Fields.nil))) =
          some (Json.obj (Fields.cons "cereal" sampleTree Fields.nil))) ∧
      ∃ fields node,
        parseTop (render (wrapped sampleTree)) = some (Json.obj fields) ∧
          findField fields "cereal" = some node :=
  ⟨top_level_name_is_cereal.1 (Int × Int) Unit sampleSave (3, 5) sampleTree rfl,
    top_level_name_is_cereal.2 (Int × Int) Unit sampleLoad (0, 0)
      (render (wrapped sampleTree)) (3, 5) rfl⟩

/-- The evolution of one buffer slot under a script depends only on that
slot's initial contents. -/
theorem runScript_agree_at (X : List BufAction) (b : Nat) :
    ∀ (h h' : Heap), h b = h' b → runScript X h b = runScript X h' b := by
  induction X with
  | nil => intro h h' hb; exact hb
  | cons a as ih => intro h h' hb; exact ih (BufAction.step a h) (BufAction.step a h') (step_agree a h h' b hb)

/-- Every action of the decode-side stream's lifetime targets its own
buffer. -/
theorem deserializeActions_targets (b : Nat) (s : List Token) :
    ∀ a ∈ deserializeActions b s, BufAction.target a = b := by
  intro a ha
  simp [deserializeActions, deserializeScript] at ha
  rcases ha with h | h | h <;> subst h <;> rfl

/-- The result of a heap-instrumented deserialize call agrees with the plain
deserialize function: the archive reads back exactly the Encoded Form its
stream was initialized with, whatever the ambient heap. -/
theorem deserializeW_fst (T E : Type) (b : Nat) (loadT : Json → T → Except E T)
    (dfl : T) (s : List Token) (h : Heap) :
    (deserializeW T E b loadT dfl s h).fst = deserialize T E loadT dfl s := by
  simp [deserializeW, deserializeScript, runScript, BufAction.step]

/-- In any interleaving with a second sequence that never touches slot `b`,
slot `b`'s whole trajectory is the solo trajectory: after any prefix of the
interleaving, the slot holds exactly what some prefix of the first sequence
alone leaves there. -/
theorem runScript_interleaving_prefix (b : Nat) :
    ∀ (A B L : List BufAction), Interleaving A B L →
      (∀ a ∈ B, BufAction.target a ≠ b) →
      ∀ (L1 L2 : List BufAction), L = L1 ++ L2 →
        ∃ A1 A2, A = A1 ++ A2 ∧ ∀ h : Heap, runScript L1 h b = runScript A1 h b := by
  intro A B L hI
  induction hI with
  | nil =>
    intro _ L1 L2 hsplit
    rcases List.append_eq_nil.mp hsplit.symm with ⟨h1, _⟩
    subst h1
    exact ⟨[], [], rfl, fun h => rfl⟩
  | left x xs ys zs hI2 ih =>
    intro hB L1 L2 hsplit
    cases L1 with
    | nil => exact ⟨[], x :: xs, rfl, fun h => rfl⟩
    | cons z L1 =>
      rw [List.cons_append] at hsplit
      obtain ⟨hz, hzs⟩ := List.cons.inj hsplit
      subst hz
      obtain ⟨A1, A2, hxs, hrun⟩ := ih hB L1 L2 hzs
      refine ⟨x :: A1, A2, by rw [List.cons_append, hxs], fun h => ?_⟩
      rw [runScript, runScript]
      exact hrun (BufAction.step x h)
  | right y xs ys zs hI2 ih =>
    intro hB L1 L2 hsplit
    cases L1 with
    | nil => exact ⟨[], xs, rfl, fun h => rfl⟩
    | cons z L1 =>
      rw [List.cons_append] at hsplit
      obtain ⟨hz, hzs⟩ := List.cons.inj hsplit
      subst hz
      have hy : BufAction.target y ≠ b := hB y (List.mem_cons_self y ys)
      obtain ⟨A1, A2, hxs, hrun⟩ :=
        ih (fun a ha => hB a (List.mem_cons_of_mem y ha)) L1 L2 hzs
      refine ⟨A1, A2, hxs, fun h => ?_⟩
      rw [runScript, hrun (BufAction.step y h)]
      exact runScript_agree_at A1 b (BufAction.step y h) h
        (step_other y h b (fun hc => hy hc.symm))

/-- Claim C9: concurrent serialize and deserialize calls from independent
threads on independent values with distinct transient buffers are safe, in
every pairing (serialize beside serialize, serialize beside deserialize,
deserialize beside deserialize) and on both exit paths of serialize: each
call's complete effect script touches only its own buffer, so under every
interleaving of the two scripts, after any scheduler prefix each call's
buffer holds exactly what some prefix of its own solo script leaves there —
neither call observes or modifies the other's transient buffer — and each
call's result is the pure serialize, respectively deserialize, result,
independent of the ambient heap and hence of the other thread. -/
theorem concurrent_calls_isolation (T1 E1 T2 E2 : Type) (b1 b2 : Nat)
    (saveT1 : T1 → Except E1 Json) (v1 : T1) (s1 : List Token)
    (saveT2 : T2 → Except E2 Json) (v2 : T2) (s2 : List Token)
    (A B L : List BufAction)
    (hA : A = serializeActions T1 E1 b1 saveT1 v1 ∨ A = deserializeActions b1 s1)
    (hB : B = serializeActions T2 E2 b2 saveT2 v2 ∨ B = deserializeActions b2 s2)
    (hne : b1 ≠ b2) (hI : Interleaving A B L) :
    (∀ a ∈ A, BufAction.target a = b1) ∧
      (∀ a ∈ B, BufAction.target a = b2) ∧
      (∀ L1 L2, L = L1 ++ L2 → ∃ A1 A2, A = A1 ++ A2 ∧
        ∀ h : Heap, runScript L1 h b1 = runScript A1 h b1) ∧
      (∀ L1 L2, L = L1 ++ L2 → ∃ B1 B2, B = B1 ++ B2 ∧
        ∀ h : Heap, runScript L1 h b2 = runScript B1 h b2) ∧
      (∀ h : Heap, (serializeW T1 E1 b1 saveT1 v1 h).fst = serializeE T1 E1 saveT1 v1) ∧
      (∀ (h : Heap) (loadT : Json → T2 → Except E2 T2) (dfl : T2),
        (deserializeW T2 E2 b2 loadT dfl s2 h).fst = deserialize T2 E2 loadT dfl s2) := by
  have htA : ∀ a ∈ A, BufAction.target a = b1 := by
    rcases hA with h1 | h1 <;> subst h1
    · exact serializeActions_targets T1 E1 b1 saveT1 v1
    · exact deserializeActions_targets b1 s1
  have htB : ∀ a ∈ B, BufAction.target a = b2 := by
    rcases hB with h1 | h1 <;> subst h1
    · exact serializeActions_targets T2 E2 b2 saveT2 v2
    · exact deserializeActions_targets b2 s2
  refine ⟨htA, htB, ?_, ?_, ?_, ?_⟩
  · intro L1 L2 hsplit
    exact runScript_interleaving_prefix b1 A B L hI
      (fun a ha => by rw [htB a ha]; exact hne.symm) L1 L2 hsplit
  · intro L1 L2 hsplit
    exact runScript_interleaving_prefix b2 B A L (interleaving_symm A B L hI)
      (fun a ha => by rw [htA a ha]; exact hne) L1 L2 hsplit
  · intro h
    exact serializeW_fst T1 E1 b1 saveT1 v1 h
  · intro h loadT dfl
    exact deserializeW_fst T2 E2 b2 loadT dfl s2 h

/-- Witness for C9: a concrete serialize call beside a concrete deserialize
call, on buffers 0 and 1, under one concrete interleaving of their full
effect scripts. -/
theorem concurrent_calls_isolation_witness :
    (∀ a ∈ serializeActions (Int × Int) Unit 0 sampleSave (3, 5), BufAction.target a = 0) ∧
      (∀ a ∈ deserializeActions 1 (render (wrapped sampleTree)), BufAction.target a = 1) ∧
      (∀ L1 L2,
        serializeActions (Int × Int) Unit 0 sampleSave (3, 5) ++
            deserializeActions 1 (render (wrapped sampleTree)) = L1 ++ L2 →
          ∃ A1 A2, serializeActions (Int × Int) Unit 0 sampleSave (3, 5) = A1 ++ A2 ∧
            ∀ h : Heap, runScript L1 h 0 = runScript A1 h 0) ∧
      (∀ L1 L2,
        serializeActions (Int × Int) Unit 0 sampleSave (3, 5) ++
            deserializeActions 1 (render (wrapped sampleTree)) = L1 ++ L2 →
          ∃ B1 B2, deserializeActions 1 (render (wrapped sampleTree)) = B1 ++ B2 ∧
            ∀ h : Heap, runScript L1 h 1 = runScript B1 h 1) ∧
      (∀ h : Heap, (serializeW (Int × Int) Unit 0 sampleSave (3, 5) h).fst =
        serializeE (Int × Int) Unit sampleSave (3, 5)) ∧
      (∀ (h : Heap) (loadT : Json → (Int × Int) → Except Unit (Int × Int))
          (dfl : Int × Int),
        (deserializeW (Int × Int) Unit 1 loadT dfl (render (wrapped sampleTree)) h).fst =
          deserialize (Int × Int) Unit loadT dfl (render (wrapped sampleTree))) :=
  concurrent_calls_isolation (Int × Int) Unit (Int × Int) Unit 0 1
    sampleSave (3, 5) (render (wrapped sampleTree))
    sampleSave (3, 5) (render (wrapped sampleTree))
    (serializeActions (Int × Int) Unit 0 sampleSave (3, 5))
    (deserializeActions 1 (render (wrapped sampleTree)))
    (serializeActions (Int × Int) Unit 0 sampleSave (3, 5) ++
      deserializeActions 1 (render (wrapped sampleTree)))
    (Or.inl rfl) (Or.inr rfl) (by decide)
    (interleaving_append (serializeActions (Int × Int) Unit 0 sampleSave (3, 5))
      (deserializeActions 1 (render (wrapped sampleTree))))
